import Mathlib

/-!
# Roadmaker traffic engine: a shallow embedding in Lean 4

This file embeds the traffic-simulation core of the Roadmaker repository
(`src/components/RoadGame.tsx` and `src/utils.ts`) and proves properties of
it.  Conventions of the embedding:

* JavaScript numbers are modelled as exact rationals (`ℚ`).  Every numeric
  literal of the source is carried over verbatim (`0.0001` becomes
  `1/10000`, and so on).
* `Math.sqrt` appears in the source only in two roles.  (1) In *comparisons*
  (`distance(a,b) < c`, `len === 0`, `dist < speed`): there we compare the
  squared quantities, which is equivalent for the exact (real-number)
  semantics because `sqrt` is strictly monotone on nonnegative reals and
  `sqrt x < c ↔ 0 < c ∧ x < c²`, `sqrt x = 0 ↔ x = 0`.  (2) In *produced
  values* (the normalised movement step and the perpendicular lane offset)
  together with `Math.atan2`: these are irrational in general, so the
  embedding abstracts them as an explicit parameter (`FloatOps`); every
  theorem below holds for an arbitrary interpretation of those two
  functions, in particular for the IEEE-754 one the browser uses.
* JavaScript `Map`/`Set`/object iteration is in first-insertion order; the
  embedding uses association lists with append-if-absent updates, which has
  exactly that iteration order.
* `Array.prototype.sort` is stable (ES2019); the embedding uses a stable
  insertion sort.
* String keys `` `${x},${y}` `` are in bijection with the coordinate pairs
  they encode, so the embedding keys directly by the point.
-/

namespace Roadmaker

/-- A plane point, `{x, y}` of `types.ts`. -/
structure Point where
  x : ℚ
  y : ℚ
deriving DecidableEq, Repr

/-- A road segment, `{start, end, controlPoint?}` of `types.ts` (the `id`
field is never read by the engine and is omitted).  `controlPoint = none`
is a straight segment; `some c` is a quadratic Bezier. -/
structure Road where
  start : Point
  stop : Point
  controlPoint : Option Point := none
deriving DecidableEq, Repr

/-- A derived intersection, `{point, vehicleCount}` of `types.ts`. -/
structure Inter where
  point : Point
  vehicleCount : ℕ := 0
deriving DecidableEq, Repr

/-- Squared Euclidean distance.  The source's `distance` is
`Math.sqrt` of this; all uses below are comparisons, carried out on
the squares (see the file comment). -/
def distSq (p1 p2 : Point) : ℚ :=
  (p2.x - p1.x) ^ 2 + (p2.y - p1.y) ^ 2

/-- `Math.round`: round half toward positive infinity (the JS rule). -/
def jsRound (q : ℚ) : ℚ :=
  (⌊q + 1/2⌋ : ℤ)

/-- The cross-product determinant of the two direction vectors in
`getLineIntersection` (`RoadGame.tsx` line 139). -/
def liCross (p1 p2 p3 p4 : Point) : ℚ :=
  (p2.x - p1.x) * (p4.y - p3.y) - (p2.y - p1.y) * (p4.x - p3.x)

/-- The parametric position `t` along `p1→p2` (`RoadGame.tsx` line 142). -/
def liT (p1 p2 p3 p4 : Point) : ℚ :=
  ((p3.x - p1.x) * (p4.y - p3.y) - (p3.y - p1.y) * (p4.x - p3.x)) / liCross p1 p2 p3 p4

/-- The parametric position `u` along `p3→p4` (`RoadGame.tsx` line 143). -/
def liU (p1 p2 p3 p4 : Point) : ℚ :=
  ((p3.x - p1.x) * (p2.y - p1.y) - (p3.y - p1.y) * (p2.x - p1.x)) / liCross p1 p2 p3 p4

/-- `getLineIntersection(p1, p2, p3, p4)` of `RoadGame.tsx` lines 131-152:
segment-segment intersection; `none` when the determinant has magnitude
below `0.0001`, otherwise the rounded intersection point when both
parameters satisfy `t >= 0.01 && t <= 0.99` and likewise for `u`. -/
def getLineIntersection (p1 p2 p3 p4 : Point) : Option Point :=
  let cross := liCross p1 p2 p3 p4
  if |cross| < 1/10000 then none
  else
    let t := liT p1 p2 p3 p4
    let u := liU p1 p2 p3 p4
    if 1/100 ≤ t ∧ t ≤ 99/100 ∧ 1/100 ≤ u ∧ u ≤ 99/100 then
      some ⟨jsRound (p1.x + t * (p2.x - p1.x)), jsRound (p1.y + t * (p2.y - p1.y))⟩
    else none

/-- C1, counterexample to the claim as stated.  At `p1=(0,0)`, `p2=(100,0)`,
`p3=(1,-1)`, `p4=(1,1)` the parameter is `t = 1/100` exactly, which is *not*
in the open interval `(0.01, 0.99)`, yet the source returns an intersection
point (`t >= 0.01` is a closed comparison), so "returns the point exactly
when both parameters lie in the open interval" is false at this input. -/
theorem C1_open_interval_counterexample :
    ¬ ((getLineIntersection ⟨0,0⟩ ⟨100,0⟩ ⟨1,-1⟩ ⟨1,1⟩ ≠ none) ↔
       (1/100 < liT ⟨0,0⟩ ⟨100,0⟩ ⟨1,-1⟩ ⟨1,1⟩ ∧ liT ⟨0,0⟩ ⟨100,0⟩ ⟨1,-1⟩ ⟨1,1⟩ < 99/100 ∧
        1/100 < liU ⟨0,0⟩ ⟨100,0⟩ ⟨1,-1⟩ ⟨1,1⟩ ∧ liU ⟨0,0⟩ ⟨100,0⟩ ⟨1,-1⟩ ⟨1,1⟩ < 99/100)) := by
  intro h
  have h1 : getLineIntersection ⟨0,0⟩ ⟨100,0⟩ ⟨1,-1⟩ ⟨1,1⟩ = some ⟨1,0⟩ := by
    norm_num [getLineIntersection, liT, liU, liCross, jsRound]
  have h2 : liT ⟨0,0⟩ ⟨100,0⟩ ⟨1,-1⟩ ⟨1,1⟩ = 1/100 := by
    norm_num [liT, liCross]
  have h3 := h.mp (by simp [h1])
  rw [h2] at h3
  exact absurd h3.1 (lt_irrefl _)

/-- C1 (amended: the parameter interval is the *closed* `[0.01, 0.99]`).
`getLineIntersection` returns `none` when the cross-product determinant of the
two direction vectors has magnitude `< 1e-4`; otherwise it returns the
intersection point, coordinates rounded to the nearest integer, exactly when
both parametric positions `t` and `u` lie in the closed interval
`[0.01, 0.99]`, and `none` otherwise. -/
theorem C1_lineIntersection_characterization (p1 p2 p3 p4 : Point) (q : Point) :
    getLineIntersection p1 p2 p3 p4 = some q ↔
      (1/10000 ≤ |liCross p1 p2 p3 p4| ∧
       liT p1 p2 p3 p4 ∈ Set.Icc (1/100 : ℚ) (99/100) ∧
       liU p1 p2 p3 p4 ∈ Set.Icc (1/100 : ℚ) (99/100) ∧
       q = ⟨jsRound (p1.x + liT p1 p2 p3 p4 * (p2.x - p1.x)),
            jsRound (p1.y + liT p1 p2 p3 p4 * (p2.y - p1.y))⟩) := by
  unfold getLineIntersection
  simp only []
  split_ifs with hc ht
  · simp only [reduceCtorEq, false_iff]
    intro h
    exact absurd h.1 (by linarith)
  · simp only [Option.some.injEq]
    constructor
    · intro h
      exact ⟨by linarith [abs_nonneg (liCross p1 p2 p3 p4)],
             ⟨ht.1, ht.2.1⟩, ⟨ht.2.2.1, ht.2.2.2⟩, h.symm⟩
    · intro h
      exact h.2.2.2.symm
  · simp only [reduceCtorEq, false_iff]
    intro h
    exact ht ⟨h.2.1.1, h.2.1.2, h.2.2.1.1, h.2.2.1.2⟩

/-- C1 witness: the amended characterization applied at a concrete input —
two segments crossing at `(100,50)` with `t = u = 1/2`. -/
theorem C1_lineIntersection_characterization_witness :
    getLineIntersection ⟨0,50⟩ ⟨200,50⟩ ⟨100,0⟩ ⟨100,100⟩ = some ⟨100,50⟩ := by
  refine (C1_lineIntersection_characterization ⟨0,50⟩ ⟨200,50⟩ ⟨100,0⟩ ⟨100,100⟩ ⟨100,50⟩).mpr ?_
  refine ⟨?_, ?_, ?_, ?_⟩ <;>
    norm_num [liT, liU, liCross, jsRound, Set.mem_Icc]

/-! ## Road Network Builder: `findIntersections` (`RoadGame.tsx` lines 155-200) -/

/-- One step of the endpoint-count `Map`: increment the count of key `k`
in insertion order (a fresh key is appended, an existing key is updated in
place — exactly JS `Map` semantics). -/
def bumpCount (m : List (Point × ℕ)) (k : Point) : List (Point × ℕ) :=
  match m with
  | [] => [(k, 1)]
  | (k', n) :: rest => if k' = k then (k', n + 1) :: rest else (k', n) :: bumpCount rest k

/-- The endpoint-occurrence counts (`points` map, lines 156-164): every
road contributes its start key then its end key, in road order. -/
def endpointCounts (rl : List Road) : List (Point × ℕ) :=
  rl.foldl (fun m r => bumpCount (bumpCount m r.start) r.stop) []

/-- The junction intersections (lines 166-172): every coordinate shared by
`>= 2` road endpoints, in map-iteration (= insertion) order. -/
def junctionInters (rl : List Road) : List Inter :=
  (endpointCounts rl).filterMap (fun e => if 2 ≤ e.2 then some ⟨e.1, 0⟩ else none)

/-- The unordered pairs `(i, j)`, `i < j`, of a list, in the double-loop
order of the source. -/
def orderedPairs {α : Type} : List α → List (α × α)
  | [] => []
  | x :: xs => xs.map (fun y => (x, y)) ++ orderedPairs xs

/-- The proximity test of lines 188-191: some already-recorded intersection
has both coordinate offsets below 5 (`Math.abs(dx) < 5 && Math.abs(dy) < 5`). -/
def nearExisting (res : List Inter) (q : Point) : Prop :=
  ∃ r ∈ res, |r.point.x - q.x| < 5 ∧ |r.point.y - q.y| < 5

instance (res : List Inter) (q : Point) : Decidable (nearExisting res q) := by
  unfold nearExisting; infer_instance

/-- `findIntersections(roadList)` of `RoadGame.tsx` lines 155-200: endpoint
junctions first, then for every unordered pair of straight roads the
mid-segment crossing, appended unless near an already-recorded
intersection. -/
def findIntersections (rl : List Road) : List Inter :=
  (orderedPairs rl).foldl
    (fun res rr =>
      if rr.1.controlPoint = none ∧ rr.2.controlPoint = none then
        match getLineIntersection rr.1.start rr.1.stop rr.2.start rr.2.stop with
        | some q => if nearExisting res q then res else res ++ [⟨q, 0⟩]
        | none => res
      else res)
    (junctionInters rl)

/-- Failing the box test against every earlier intersection forces squared
Euclidean distance at least 25 (one coordinate offset is `≥ 5` in magnitude). -/
theorem sq_dist_ge_of_not_near {res : List Inter} {q : Point} (h : ¬ nearExisting res q)
    (r : Inter) (hr : r ∈ res) : 25 ≤ distSq r.point q := by
  unfold nearExisting at h
  push_neg at h
  rcases le_or_lt 5 |r.point.x - q.x| with hx | hx
  · have : 25 ≤ (q.x - r.point.x) ^ 2 := by
      have := sq_abs (r.point.x - q.x)
      nlinarith [sq_nonneg (|r.point.x - q.x| - 5)]
    unfold distSq
    nlinarith [sq_nonneg (q.y - r.point.y)]
  · have hy := h r hr hx
    have : 25 ≤ (q.y - r.point.y) ^ 2 := by
      have := sq_abs (r.point.y - q.y)
      nlinarith [sq_nonneg (|r.point.y - q.y| - 5)]
    unfold distSq
    nlinarith [sq_nonneg (q.x - r.point.x)]

/-- The separation invariant carried through the crossing fold: every
element at or beyond position `base` is `≥ 5` away (in squared distance
`≥ 25`) from every element before it. -/
def SepAfter (base : ℕ) (res : List Inter) : Prop :=
  ∀ i j : ℕ, base ≤ j → j < res.length → i < j →
    25 ≤ distSq ((res.getD i ⟨⟨0,0⟩,0⟩).point) ((res.getD j ⟨⟨0,0⟩,0⟩).point)

theorem sepAfter_append {base : ℕ} {res : List Inter} {q : Point}
    (hs : SepAfter base res) (hfar : ∀ r ∈ res, 25 ≤ distSq r.point q) :
    SepAfter base (res ++ [⟨q, 0⟩]) := by
  intro i j hbase hj hij
  rw [List.length_append, List.length_singleton] at hj
  rcases lt_or_ge j res.length with hjl | hjl
  · rw [List.getD_append _ _ _ _ (lt_trans hij hjl), List.getD_append _ _ _ _ hjl]
    exact hs i j hbase hjl hij
  · have hj' : j = res.length := by omega
    subst hj'
    have hi : i < res.length := hij
    rw [List.getD_append _ _ _ _ hi]
    have : (res ++ [(⟨q, 0⟩ : Inter)]).getD res.length ⟨⟨0,0⟩,0⟩ = ⟨q, 0⟩ := by
      rw [List.getD_eq_getElem?_getD, List.getElem?_append_right (le_refl _)]
      simp
    rw [this]
    refine hfar _ ?_
    rw [List.getD_eq_getElem _ _ hi]
    exact List.getElem_mem _

theorem sepAfter_foldl (base : ℕ) (prs : List (Road × Road)) (res : List Inter)
    (hs : SepAfter base res) :
    SepAfter base (prs.foldl
      (fun res rr =>
        if rr.1.controlPoint = none ∧ rr.2.controlPoint = none then
          match getLineIntersection rr.1.start rr.1.stop rr.2.start rr.2.stop with
          | some q => if nearExisting res q then res else res ++ [⟨q, 0⟩]
          | none => res
        else res)
      res) := by
  induction prs generalizing res with
  | nil => exact hs
  | cons rr prs ih =>
    simp only [List.foldl_cons]
    apply ih
    split_ifs with h1
    · cases hq : getLineIntersection rr.1.start rr.1.stop rr.2.start rr.2.stop with
      | none => exact hs
      | some q =>
        show SepAfter base (if nearExisting res q then res else res ++ [⟨q, 0⟩])
        split_ifs with h2
        · exact hs
        · exact sepAfter_append hs (sq_dist_ge_of_not_near h2)
    · exact hs

/-- Four straight roads: a horizontal base, a vertical road crossing it at
`(105,0)`, and two diagonals sharing the endpoint `(100,0)` (a junction),
the second of which also crosses the vertical road at `(105,-8)`. -/
def exRoads : List Road :=
  [⟨⟨0,0⟩, ⟨200,0⟩, none⟩, ⟨⟨105,-50⟩, ⟨105,50⟩, none⟩,
   ⟨⟨100,0⟩, ⟨50,-80⟩, none⟩, ⟨⟨100,0⟩, ⟨150,-80⟩, none⟩]

theorem exRoads_junctions : junctionInters exRoads = [⟨⟨100,0⟩, 0⟩] := by
  norm_num [junctionInters, endpointCounts, bumpCount, exRoads, List.filterMap]

theorem exRoads_inters :
    findIntersections exRoads = [⟨⟨100,0⟩, 0⟩, ⟨⟨105,0⟩, 0⟩, ⟨⟨105,-8⟩, 0⟩] := by
  norm_num [findIntersections, junctionInters, endpointCounts, bumpCount, List.filterMap,
    exRoads, orderedPairs, nearExisting, getLineIntersection, liT, liU, liCross, jsRound]

/-- C4, counterexample to "every crossing in the output lies farther than
5 px from every intersection recorded before it": on `exRoads` the crossing
`(105,0)` is recorded after the junction `(100,0)` at Euclidean distance
exactly 5 (squared distance 25), which is not *farther than* 5. -/
theorem C4_farther_than_counterexample :
    (findIntersections exRoads).map Inter.point = [⟨100,0⟩, ⟨105,0⟩, ⟨105,-8⟩] ∧
    (junctionInters exRoads).map Inter.point = [⟨100,0⟩] ∧
    distSq ⟨100,0⟩ ⟨105,0⟩ = 25 ∧ ¬ (5 ^ 2 < distSq ⟨100,0⟩ ⟨105,0⟩) := by
  refine ⟨?_, ?_, ?_, ?_⟩
  · rw [exRoads_inters]; rfl
  · rw [exRoads_junctions]; rfl
  · norm_num [distSq]
  · norm_num [distSq]

/-- C4 (amended: "farther than 5 px" weakened to "not within 5 px", i.e.
distance at least 5).  A mid-segment crossing is added only if it is not
within 5 px of an already-recorded intersection, so every element of the
output beyond the junction prefix is at squared distance `≥ 25` from every
element recorded before it. -/
theorem C4_crossing_separation (rl : List Road) (i j : ℕ)
    (hbase : (junctionInters rl).length ≤ j)
    (hj : j < (findIntersections rl).length) (hij : i < j) :
    25 ≤ distSq ((findIntersections rl).getD i ⟨⟨0,0⟩,0⟩).point
                ((findIntersections rl).getD j ⟨⟨0,0⟩,0⟩).point := by
  have hsep : SepAfter (junctionInters rl).length (findIntersections rl) := by
    unfold findIntersections
    apply sepAfter_foldl
    intro i j hb hjl hij
    omega
  exact hsep i j hbase hj hij

/-- C4 witness: the amended separation bound applied on `exRoads` at the
concrete positions `i = 0` (junction `(100,0)`) and `j = 1` (crossing
`(105,0)`): the squared distance is at least 25. -/
theorem C4_crossing_separation_witness :
    25 ≤ distSq ((findIntersections exRoads).getD 0 ⟨⟨0,0⟩,0⟩).point
                ((findIntersections exRoads).getD 1 ⟨⟨0,0⟩,0⟩).point := by
  refine C4_crossing_separation exRoads 0 1 ?_ ?_ ?_
  · rw [exRoads_junctions]; norm_num
  · rw [exRoads_inters]; norm_num
  · norm_num

/-! ## Path Finder: `findPath` (`RoadGame.tsx` lines 203-348)

The source keys `Set`/`Map` entries by the string `` `${x},${y}` ``; string
equality of keys coincides with coordinate-pair equality, so the embedding
keys by the `Point` itself.  JS `Set.add` is append-if-absent. -/

/-- `Set.add`: append `p` unless already present. -/
def addNode (l : List Point) (p : Point) : List Point :=
  if p ∈ l then l else l ++ [p]

/-- The road-endpoint nodes (lines 211-216), in road order, start before
end. -/
def endpointNodes (rl : List Road) : List Point :=
  rl.foldl (fun l r => addNode (addNode l r.start) r.stop) []

/-- `realIntersections` (lines 219-237): for every unordered pair of
straight roads, the mid-segment crossing, *without* deduplication. -/
def realIntersections (rl : List Road) : List Point :=
  (orderedPairs rl).foldl
    (fun acc rr =>
      if rr.1.controlPoint = none ∧ rr.2.controlPoint = none then
        match getLineIntersection rr.1.start rr.1.stop rr.2.start rr.2.stop with
        | some q => acc ++ [q]
        | none => acc
      else acc)
    []

/-- `allNodes` (lines 207-237): road endpoints, then every crossing,
first-insertion order. -/
def allNodesList (rl : List Road) : List Point :=
  (realIntersections rl).foldl addNode (endpointNodes rl)

/-- A `{point, t}` entry of `nodesOnRoad`. -/
structure TNode where
  point : Point
  t : ℚ
deriving DecidableEq, Repr

/-- `nodesOnRoad` before sorting (lines 242-266): the road's endpoints at
`t = 0` and `t = 1` plus, for a straight road, every crossing whose
projection parameter lies strictly inside `(0.01, 0.99)` and whose distance
to the projected point is below 2.  The source guards `len === 0` and
divides by `len * len = dx² + dy²`; distance comparisons are carried out on
squares (`sqrt s = 0 ↔ s = 0`, `sqrt s < 2 ↔ s < 4`). -/
def nodesOnRoad (crossings : List Point) (r : Road) : List TNode :=
  let base : List TNode := [⟨r.start, 0⟩, ⟨r.stop, 1⟩]
  if r.controlPoint = none then
    crossings.foldl
      (fun acc q =>
        let dx := r.stop.x - r.start.x
        let dy := r.stop.y - r.start.y
        if dx ^ 2 + dy ^ 2 = 0 then acc
        else
          let t := ((q.x - r.start.x) * dx + (q.y - r.start.y) * dy) / (dx ^ 2 + dy ^ 2)
          if 1/100 < t ∧ t < 99/100 then
            let projX := r.start.x + t * dx
            let projY := r.start.y + t * dy
            if (q.x - projX) ^ 2 + (q.y - projY) ^ 2 < 4 then acc ++ [⟨q, t⟩] else acc
          else acc)
      base
  else base

/-- Stable insertion of a `TNode` by parameter `t` (equal keys keep their
relative order, as ES2019 `Array.sort` does). -/
def insertByT (x : TNode) : List TNode → List TNode
  | [] => [x]
  | y :: ys => if x.t < y.t then x :: y :: ys else y :: insertByT x ys

/-- `nodesOnRoad.sort((a, b) => a.t - b.t)` (line 269), stable. -/
def sortByT (l : List TNode) : List TNode :=
  l.foldl (fun acc x => insertByT x acc) []

/-- The adjacency map `nodeConnections`: per node, the `{point, road}`
neighbour entries in push order. -/
abbrev NC := List (Point × List (Point × Road))

/-- `Map.get(k)!.push(v)`, creating the entry when absent (lines 278-282). -/
def ncPush (m : NC) (k : Point) (v : Point × Road) : NC :=
  match m with
  | [] => [(k, [v])]
  | (k', l) :: rest => if k' = k then (k', l ++ [v]) :: rest else (k', l) :: ncPush rest k v

/-- `nodeConnections.get(key) || []` (line 334). -/
def ncGet (m : NC) (k : Point) : List (Point × Road) :=
  match m with
  | [] => []
  | (k', l) :: rest => if k' = k then l else ncGet rest k

/-- Link consecutive on-road nodes in both directions (lines 272-283). -/
def linkConsec (r : Road) (m : NC) : List TNode → NC
  | a :: b :: rest =>
      linkConsec r (ncPush (ncPush m a.point (b.point, r)) b.point (a.point, r)) (b :: rest)
  | _ => m

/-- The full adjacency built per road (lines 240-284). -/
def nodeConnections (rl : List Road) : NC :=
  rl.foldl (fun m r => linkConsec r m (sortByT (nodesOnRoad (realIntersections rl) r))) []

/-- The closest-node fold (lines 287-308): first-found-wins under strict
`<`, carried out on squared distances.  Returns the closest point with its
squared distance, or `none` on an empty node list (the source's `Infinity`
initial state). -/
def closestNode (nodes : List Point) (q : Point) : Option (Point × ℚ) :=
  nodes.foldl
    (fun acc p =>
      match acc with
      | none => some (p, distSq p q)
      | some (bp, bd) => if distSq p q < bd then some (p, distSq p q) else some (bp, bd))
    none

/-- The node `start`/`end` snaps to. -/
def snapNode (rl : List Road) (q : Point) : Option Point :=
  (closestNode (allNodesList rl) q).map Prod.fst

/-- The neighbour-expansion body of the BFS loop (lines 335-344): skip a
visited neighbour; otherwise mark it visited and enqueue it with the
extended path. -/
def bfsExpand (path : List Point) (acc : List (Point × List Point) × List Point)
    (nb : Point × Road) : List (Point × List Point) × List Point :=
  if nb.1 ∈ acc.2 then acc
  else (acc.1 ++ [(nb.1, path ++ [nb.1])], acc.2 ++ [nb.1])

/-- The BFS worklist loop (lines 319-346).  Entries are `{point, path}`
(the source also carries a `roads` array per entry, which is written but
never read, and is omitted).  The fuel argument only bounds the iteration
count: each iteration pops one entry, every pushed entry records a freshly
visited node from `allNodes`, and the initial queue has one entry, so
`allNodes.length + 1` iterations can never be exhausted; the loop is the
source's `while (queue.length > 0)`. -/
def bfsAux (m : NC) (endNode : Point) : ℕ → List (Point × List Point) → List Point →
    Option (List Point)
  | 0, _, _ => none
  | _ + 1, [], _ => none
  | fuel + 1, (p, path) :: rest, visited =>
      if p = endNode then some path
      else
        let step := (ncGet m p).foldl (bfsExpand path) (rest, visited)
        bfsAux m endNode fuel step.1 step.2

/-- `findPath(start, end, roadList)` of `RoadGame.tsx` lines 203-348. -/
def findPath (s e : Point) (rl : List Road) : Option (List Point) :=
  if rl = [] then none
  else
    let nodes := allNodesList rl
    let m := nodeConnections rl
    match closestNode nodes s, closestNode nodes e with
    | some (s0, ds), some (e0, de) =>
        if 2500 < ds then none
        else if 2500 < de then none
        else bfsAux m e0 (nodes.length + 1) [(s0, [s0])] [s0]
    | _, _ => none

/-- A single straight road. -/
def exRoad1 : List Road := [⟨⟨0,0⟩, ⟨200,0⟩, none⟩]

theorem exRoad1_path_eval : findPath ⟨200,0⟩ ⟨0,0⟩ exRoad1 = some [⟨200,0⟩, ⟨0,0⟩] := by
  norm_num [findPath, exRoad1, allNodesList, endpointNodes, realIntersections, orderedPairs,
    addNode, closestNode, distSq, nodeConnections, nodesOnRoad, sortByT, insertByT,
    linkConsec, ncPush, ncGet, bfsAux, bfsExpand]

/-- The closest-node fold only ever reports a processed node (or the seed)
together with its own squared distance. -/
theorem closestNode_fold_spec (q : Point) (P : Point → Prop) :
    ∀ (nodes : List Point) (acc : Option (Point × ℚ)) (p : Point) (d : ℚ),
      (∀ bp bd, acc = some (bp, bd) → P bp ∧ bd = distSq bp q) →
      (∀ x ∈ nodes, P x) →
      nodes.foldl
        (fun acc p =>
          match acc with
          | none => some (p, distSq p q)
          | some (bp, bd) => if distSq p q < bd then some (p, distSq p q) else some (bp, bd))
        acc = some (p, d) →
      P p ∧ d = distSq p q := by
  intro nodes
  induction nodes with
  | nil =>
    intro acc p d hacc _ hfold
    exact hacc p d hfold
  | cons x xs ih =>
    intro acc p d hacc hmem hfold
    refine ih _ p d ?_ (fun y hy => hmem y (List.mem_cons_of_mem _ hy)) hfold
    intro bp bd hb
    match acc with
    | none =>
      simp only [] at hb
      cases hb
      exact ⟨hmem x (List.mem_cons_self _ _), rfl⟩
    | some (bp', bd') =>
      have h' := hacc bp' bd' rfl
      simp only [] at hb
      split_ifs at hb with hlt
      · cases hb
        exact ⟨hmem x (List.mem_cons_self _ _), rfl⟩
      · cases hb
        exact h'

/-- `closestNode` returns a member of the node list with its squared
distance to the query point. -/
theorem closestNode_spec {nodes : List Point} {q p : Point} {d : ℚ}
    (h : closestNode nodes q = some (p, d)) : p ∈ nodes ∧ d = distSq p q := by
  refine closestNode_fold_spec q (· ∈ nodes) nodes none p d ?_ (fun x hx => hx) h
  intro bp bd hb
  cases hb

/-- C3: on a non-empty road set, if every graph node is farther than 50 px
from `start` (squared distance above 2500), or every graph node is farther
than 50 px from `end`, then `findPath` returns no path. -/
theorem C3_snap_distance_guard (s e : Point) (rl : List Road) (hne : rl ≠ [])
    (h : (∀ p ∈ allNodesList rl, 2500 < distSq p s) ∨
         (∀ p ∈ allNodesList rl, 2500 < distSq p e)) :
    findPath s e rl = none := by
  unfold findPath
  rw [if_neg hne]
  simp only []
  cases hs : closestNode (allNodesList rl) s with
  | none =>
    cases closestNode (allNodesList rl) e with
    | none => rfl
    | some pe => obtain ⟨p1, d1⟩ := pe; rfl
  | some ps =>
    obtain ⟨p0, d0⟩ := ps
    cases he : closestNode (allNodesList rl) e with
    | none => rfl
    | some pe =>
      obtain ⟨p1, d1⟩ := pe
      have hspec0 := closestNode_spec hs
      have hspec1 := closestNode_spec he
      simp only []
      rcases h with h | h
      · rw [if_pos (by rw [hspec0.2]; exact h p0 hspec0.1)]
      · by_cases h0 : 2500 < d0
        · rw [if_pos h0]
        · rw [if_neg h0, if_pos (by rw [hspec1.2]; exact h p1 hspec1.1)]

/-- C3 witness: a start point 500 px above the single road of `exRoad1`
(both graph nodes at squared distance above 2500 from it) yields no path. -/
theorem C3_snap_distance_guard_witness : findPath ⟨0,500⟩ ⟨0,0⟩ exRoad1 = none := by
  refine C3_snap_distance_guard ⟨0,500⟩ ⟨0,0⟩ exRoad1 (by norm_num [exRoad1]) (Or.inl ?_)
  intro p hp
  have : allNodesList exRoad1 = [⟨0,0⟩, ⟨200,0⟩] := by
    norm_num [allNodesList, exRoad1, endpointNodes, realIntersections, orderedPairs, addNode]
  rw [this] at hp
  simp only [List.mem_cons, List.not_mem_nil, or_false] at hp
  rcases hp with hp | hp <;> rw [hp] <;> norm_num [distSq]

/-- C8: `findPath` is deterministic — two runs on the same road set and the
same start/end points yield the same result. -/
theorem C8_findPath_deterministic (s e : Point) (rl : List Road)
    (r1 r2 : Option (List Point)) (h1 : findPath s e rl = r1) (h2 : findPath s e rl = r2) :
    r1 = r2 :=
  h1.symm.trans h2

/-- C8 witness: two evaluations of `findPath` on `exRoad1` from `(200,0)`
to `(0,0)` agree (both produce the two-node path). -/
theorem C8_findPath_deterministic_witness :
    (some [(⟨200,0⟩ : Point), ⟨0,0⟩] : Option (List Point)) = some [⟨200,0⟩, ⟨0,0⟩] :=
  C8_findPath_deterministic ⟨200,0⟩ ⟨0,0⟩ exRoad1 _ _ exRoad1_path_eval exRoad1_path_eval

/-! ## BFS correctness: paths in the constructed graph -/

/-- `b` is a neighbour of `a` in the adjacency map `m` (some entry of
`nodeConnections.get(a)` carries the point `b`). -/
def AdjIn (m : NC) (a b : Point) : Prop :=
  b ∈ (ncGet m a).map Prod.fst

instance (m : NC) (a b : Point) : Decidable (AdjIn m a b) := by
  unfold AdjIn; infer_instance

/-- A walk in the adjacency map `m` from `a` to `c` visiting exactly the
listed nodes, consecutive ones adjacent. -/
inductive GPath (m : NC) : Point → Point → List Point → Prop
  | single (a : Point) : GPath m a a [a]
  | cons {a b c : Point} {xs : List Point} :
      AdjIn m a b → GPath m b c xs → GPath m a c (a :: xs)

theorem GPath.ne_nil {m : NC} {a c : Point} {xs : List Point} (h : GPath m a c xs) :
    xs ≠ [] := by
  cases h <;> simp

theorem GPath.length_pos {m : NC} {a c : Point} {xs : List Point} (h : GPath m a c xs) :
    1 ≤ xs.length := by
  cases h <;> simp

theorem GPath.eq_of_length_one {m : NC} {a c : Point} {xs : List Point}
    (h : GPath m a c xs) (hl : xs.length = 1) : a = c := by
  cases h with
  | single => rfl
  | cons hadj hrest =>
    exfalso
    have := hrest.length_pos
    simp only [List.length_cons] at hl
    omega

/-- Extend a walk by one adjacency step. -/
theorem GPath.snoc {m : NC} {a c y : Point} {xs : List Point}
    (h : GPath m a c xs) (hadj : AdjIn m c y) : GPath m a y (xs ++ [y]) := by
  induction h with
  | single b => exact GPath.cons hadj (GPath.single y)
  | cons hab hrest ih => exact GPath.cons hab (ih hadj)

/-- Strip the final node of a walk of length at least two. -/
theorem GPath.unsnoc {m : NC} {a c : Point} {xs : List Point}
    (h : GPath m a c xs) (hl : 2 ≤ xs.length) :
    ∃ (ys : List Point) (x : Point), xs = ys ++ [c] ∧ GPath m a x ys ∧ AdjIn m x c := by
  induction h with
  | single b => simp at hl
  | @cons a b c zs hab hrest ih =>
    cases hrest with
    | single =>
      exact ⟨[a], a, rfl, GPath.single a, hab⟩
    | @cons b b' c ws hbb' hrest' =>
      obtain ⟨ys, x, hys, hpath, hadj⟩ := ih (by have := hrest'.length_pos; simp; omega)
      refine ⟨a :: ys, x, ?_, GPath.cons hab hpath, hadj⟩
      rw [List.cons_append, ← hys]

/-- Characterisation of the neighbour-expansion fold: it appends, to both
queue and visited list, some duplicate-free list `fresh` of previously
unvisited neighbours, and afterwards every neighbour is visited. -/
theorem bfsExpand_char (path : List Point) :
    ∀ (nbs : List (Point × Road)) (q0 : List (Point × List Point)) (vis0 : List Point),
      ∃ fresh : List Point,
        nbs.foldl (bfsExpand path) (q0, vis0) =
          (q0 ++ fresh.map (fun y => (y, path ++ [y])), vis0 ++ fresh) ∧
        fresh.Nodup ∧ (∀ y ∈ fresh, y ∉ vis0) ∧
        (∀ y ∈ fresh, y ∈ nbs.map Prod.fst) ∧
        (∀ y ∈ nbs.map Prod.fst, y ∈ vis0 ∨ y ∈ fresh) := by
  intro nbs
  induction nbs with
  | nil =>
    intro q0 vis0
    exact ⟨[], by simp, by simp, by simp, by simp, by simp⟩
  | cons nb nbs ih =>
    intro q0 vis0
    by_cases hv : nb.1 ∈ vis0
    · obtain ⟨fresh, heq, hnd, hdisj, hsub, hcov⟩ := ih q0 vis0
      refine ⟨fresh, ?_, hnd, hdisj, ?_, ?_⟩
      · rw [List.foldl_cons]
        rw [show bfsExpand path (q0, vis0) nb = (q0, vis0) by
          unfold bfsExpand; rw [if_pos hv]]
        exact heq
      · exact fun y hy => List.mem_cons_of_mem _ (hsub y hy)
      · intro y hy
        rcases List.mem_cons.mp hy with hy | hy
        · exact Or.inl (hy ▸ hv)
        · exact hcov y hy
    · obtain ⟨fresh, heq, hnd, hdisj, hsub, hcov⟩ :=
        ih (q0 ++ [(nb.1, path ++ [nb.1])]) (vis0 ++ [nb.1])
      refine ⟨nb.1 :: fresh, ?_, ?_, ?_, ?_, ?_⟩
      · rw [List.foldl_cons]
        rw [show bfsExpand path (q0, vis0) nb =
              (q0 ++ [(nb.1, path ++ [nb.1])], vis0 ++ [nb.1]) by
          unfold bfsExpand; rw [if_neg hv]]
        rw [heq]
        simp
      · refine List.Nodup.cons ?_ hnd
        intro hmem
        exact hdisj _ hmem (List.mem_append_right _ (List.mem_singleton.mpr rfl))
      · intro y hy
        rcases List.mem_cons.mp hy with hy | hy
        · exact hy ▸ hv
        · exact fun hc => hdisj y hy (List.mem_append_left _ hc)
      · intro y hy
        rcases List.mem_cons.mp hy with hy | hy
        · exact hy ▸ List.mem_cons_self _ _
        · exact List.mem_cons_of_mem _ (hsub y hy)
      · intro y hy
        rcases List.mem_cons.mp hy with hy | hy
        · exact Or.inr (hy ▸ List.mem_cons_self _ _)
        · rcases hcov y hy with hc | hc
          · rcases List.mem_append.mp hc with hc | hc
            · exact Or.inl hc
            · exact Or.inr (List.mem_singleton.mp hc ▸ List.mem_cons_self _ _)
          · exact Or.inr (List.mem_cons_of_mem _ hc)

/-- The BFS loop invariant.  `queue` is the pending worklist, `visited` the
set of discovered nodes; `s` is the snapped start node. -/
structure BfsInv (m : NC) (s : Point) (queue : List (Point × List Point))
    (visited : List Point) : Prop where
  entries : ∀ ent ∈ queue, GPath m s ent.1 ent.2 ∧ ent.2.Nodup ∧ ∀ x ∈ ent.2, x ∈ visited
  mono : List.Chain' (· ≤ ·) (queue.map (fun ent => ent.2.length))
  window : ∀ ent ∈ queue, ∀ ent0 ∈ queue.head?, ent.2.length ≤ ent0.2.length + 1
  minimal : ∀ ent ∈ queue, ∀ Q, GPath m s ent.1 Q → ent.2.length ≤ Q.length
  frontier : ∀ u, u ∉ visited → ∀ Q, GPath m s u Q → ∀ ent0 ∈ queue.head?,
      ent0.2.length + 1 ≤ Q.length
  closure : ∀ x ∈ visited, (∀ ent ∈ queue, ent.1 ≠ x) → ∀ y, AdjIn m x y → y ∈ visited
  qvis : ∀ ent ∈ queue, ent.1 ∈ visited
  qnodup : (queue.map Prod.fst).Nodup

/-- The invariant holds for the initial state `queue = [(s, [s])]`,
`visited = [s]`. -/
theorem BfsInv.init (m : NC) (s : Point) : BfsInv m s [(s, [s])] [s] where
  entries := by
    intro ent hent
    rw [List.mem_singleton] at hent
    subst hent
    exact ⟨GPath.single s, List.nodup_singleton s, by simp⟩
  mono := by simp
  window := by
    intro ent hent ent0 hent0
    rw [List.mem_singleton] at hent
    simp only [List.head?_cons, Option.mem_def, Option.some.injEq] at hent0
    subst hent
    subst hent0
    simp
  minimal := by
    intro ent hent Q hQ
    rw [List.mem_singleton] at hent
    subst hent
    simpa using hQ.length_pos
  frontier := by
    intro u hu Q hQ ent0 hent0
    simp only [List.head?_cons, Option.mem_def, Option.some.injEq] at hent0
    subst hent0
    have h1 := hQ.length_pos
    rcases Nat.lt_or_ge Q.length 2 with h2 | h2
    · have : Q.length = 1 := by omega
      exact absurd (hQ.eq_of_length_one this ▸ List.mem_singleton.mpr rfl) hu
    · simpa using h2
  closure := by
    intro x hx hnq y _
    rw [List.mem_singleton] at hx
    exact absurd hx.symm (hnq (s, [s]) (List.mem_singleton.mpr rfl))
  qvis := by
    intro ent hent
    rw [List.mem_singleton] at hent
    subst hent
    exact List.mem_singleton.mpr rfl
  qnodup := by simp

theorem chain'_le_const {α : Type} (l : List α) (c : ℕ) :
    List.Chain' (· ≤ ·) (l.map fun _ => c) := by
  induction l with
  | nil => simp
  | cons x xs ih =>
    rw [List.map_cons]
    refine List.chain'_cons'.mpr ⟨?_, ih⟩
    intro y hy
    have : y ∈ (xs.map fun _ => c) := List.mem_of_mem_head? hy
    rcases List.mem_map.mp this with ⟨_, _, rfl⟩
    exact le_refl c

/-- One BFS iteration preserves the invariant: popping the head `(p, path)`
and appending the fresh neighbours of `p`. -/
theorem BfsInv.step {m : NC} {s p : Point} {path : List Point}
    {rest : List (Point × List Point)} {visited fresh : List Point}
    (inv : BfsInv m s ((p, path) :: rest) visited)
    (hnd : fresh.Nodup) (hdisj : ∀ y ∈ fresh, y ∉ visited)
    (hsub : ∀ y ∈ fresh, AdjIn m p y)
    (hcov : ∀ y, AdjIn m p y → y ∈ visited ∨ y ∈ fresh) :
    BfsInv m s (rest ++ fresh.map (fun y => (y, path ++ [y]))) (visited ++ fresh) := by
  obtain ⟨hgp, hpnd, hpsub⟩ := inv.entries (p, path) (List.mem_cons_self _ _)
  set n1 := path.length with hn1def
  have hn1 : 1 ≤ n1 := hgp.length_pos
  have hpw : List.Pairwise (· ≤ ·) (((p, path) :: rest).map (fun ent => ent.2.length)) :=
    List.chain'_iff_pairwise.mp inv.mono
  have hpw' : List.Pairwise (· ≤ ·)
      (path.length :: rest.map (fun ent => ent.2.length)) := hpw
  have hge : ∀ ent ∈ rest, n1 ≤ ent.2.length := by
    intro ent hent
    exact (List.pairwise_cons.mp hpw').1 _ (List.mem_map_of_mem _ hent)
  have hle : ∀ ent ∈ rest, ent.2.length ≤ n1 + 1 := by
    intro ent hent
    exact inv.window ent (List.mem_cons_of_mem _ hent) (p, path) (by simp)
  have hnews_mem : ∀ ent ∈ fresh.map (fun y => (y, path ++ [y])),
      ∃ y ∈ fresh, ent = (y, path ++ [y]) := by
    intro ent hent
    rcases List.mem_map.mp hent with ⟨y, hy, rfl⟩
    exact ⟨y, hy, rfl⟩
  have hq_le : ∀ ent ∈ rest ++ fresh.map (fun y => (y, path ++ [y])),
      ent.2.length ≤ n1 + 1 := by
    intro ent hent
    rcases List.mem_append.mp hent with h | h
    · exact hle ent h
    · rcases hnews_mem ent h with ⟨y, _, rfl⟩
      simp
  have hq_ge : ∀ ent ∈ rest ++ fresh.map (fun y => (y, path ++ [y])),
      n1 ≤ ent.2.length := by
    intro ent hent
    rcases List.mem_append.mp hent with h | h
    · exact hge ent h
    · rcases hnews_mem ent h with ⟨y, _, rfl⟩
      simp
  refine ⟨?_, ?_, ?_, ?_, ?_, ?_, ?_, ?_⟩
  · -- entries
    intro ent hent
    rcases List.mem_append.mp hent with h | h
    · obtain ⟨h1, h2, h3⟩ := inv.entries ent (List.mem_cons_of_mem _ h)
      exact ⟨h1, h2, fun x hx => List.mem_append_left _ (h3 x hx)⟩
    · rcases hnews_mem ent h with ⟨y, hy, rfl⟩
      refine ⟨hgp.snoc (hsub y hy), ?_, ?_⟩
      · rw [List.nodup_append]
        exact ⟨hpnd, List.nodup_singleton _,
          fun a ha hb => hdisj y hy (List.mem_singleton.mp hb ▸ hpsub a ha)⟩
      · intro x hx
        rcases List.mem_append.mp hx with hx | hx
        · exact List.mem_append_left _ (hpsub x hx)
        · exact List.mem_append_right _ (List.mem_singleton.mp hx ▸ hy)
  · -- mono
    rw [List.map_append]
    refine List.chain'_append.mpr ⟨inv.mono.tail, ?_, ?_⟩
    · have : (fresh.map (fun y => (y, path ++ [y]))).map (fun ent => ent.2.length) =
          fresh.map (fun _ => n1 + 1) := by
        rw [List.map_map]
        refine List.map_congr_left ?_
        intro y _
        simp
      rw [this]
      exact chain'_le_const fresh (n1 + 1)
    · intro x hx y hy
      have hxm : x ∈ rest.map (fun ent => ent.2.length) := List.mem_of_mem_getLast? hx
      rcases List.mem_map.mp hxm with ⟨ent, hent, rfl⟩
      have hym : y ∈ (fresh.map (fun y => (y, path ++ [y]))).map (fun ent => ent.2.length) :=
        List.mem_of_mem_head? hy
      rcases List.mem_map.mp hym with ⟨ent', hent', rfl⟩
      rcases hnews_mem ent' hent' with ⟨z, _, rfl⟩
      simpa using hle ent hent
  · -- window
    intro ent hent ent0 hent0
    have h0 : ent0 ∈ rest ++ fresh.map (fun y => (y, path ++ [y])) :=
      List.mem_of_mem_head? hent0
    calc ent.2.length ≤ n1 + 1 := hq_le ent hent
    _ ≤ ent0.2.length + 1 := by have := hq_ge ent0 h0; omega
  · -- minimal
    intro ent hent Q hQ
    rcases List.mem_append.mp hent with h | h
    · exact inv.minimal ent (List.mem_cons_of_mem _ h) Q hQ
    · rcases hnews_mem ent h with ⟨y, hy, rfl⟩
      have : n1 + 1 ≤ Q.length := inv.frontier y (hdisj y hy) Q hQ (p, path) (by simp)
      simpa using this
  · -- frontier
    intro u hu Q hQ ent0 hent0
    have hu1 : u ∉ visited := fun hc => hu (List.mem_append_left _ hc)
    have hu2 : u ∉ fresh := fun hc => hu (List.mem_append_right _ hc)
    have hQ1 : n1 + 1 ≤ Q.length := inv.frontier u hu1 Q hQ (p, path) (by simp)
    have hent0m : ent0 ∈ rest ++ fresh.map (fun y => (y, path ++ [y])) :=
      List.mem_of_mem_head? hent0
    have h0le : ent0.2.length ≤ n1 + 1 := hq_le ent0 hent0m
    by_cases hent0n : ent0.2.length = n1 + 1
    swap
    · omega
    rcases Nat.lt_or_ge (n1 + 1) Q.length with hlt | hge'
    · omega
    have hQlen : Q.length = n1 + 1 := by omega
    exfalso
    have h2 : 2 ≤ Q.length := by omega
    obtain ⟨Q', x, hQeq, hQ', hadj⟩ := hQ.unsnoc h2
    have hQ'len : Q'.length = n1 := by
      have := hQlen
      rw [hQeq] at this
      simpa using this
    by_cases hxv : x ∈ visited
    · by_cases hxq : ∀ ent ∈ (p, path) :: rest, ent.1 ≠ x
      · exact hu1 (inv.closure x hxv hxq u hadj)
      · push_neg at hxq
        obtain ⟨ent, hentq, hentx⟩ := hxq
        rcases List.mem_cons.mp hentq with hh | hh
        · have hxp : x = p := by rw [hh] at hentx; exact hentx.symm
          rcases hcov u (hxp ▸ hadj) with hc | hc
          · exact hu1 hc
          · exact hu2 hc
        · have hGx : GPath m s ent.1 Q' := hentx ▸ hQ'
          have hentlen_le : ent.2.length ≤ Q'.length := inv.minimal ent hentq Q' hGx
          have hentlen_ge : n1 ≤ ent.2.length := hge ent hh
          have hentlen : ent.2.length = n1 := by omega
          cases rest with
          | nil => exact absurd hh (List.not_mem_nil _)
          | cons r2 rest' =>
            have hent0r : ent0 = r2 := by
              have hh0 : (((r2 :: rest') ++ fresh.map (fun y => (y, path ++ [y]))) :
                  List (Point × List Point)).head? = some r2 := rfl
              rw [Option.mem_def, hh0] at hent0
              exact (Option.some_inj.mp hent0).symm
            have hpw2 : List.Pairwise (· ≤ ·)
                (r2.2.length :: rest'.map (fun ent => ent.2.length)) :=
              (List.pairwise_cons.mp hpw').2
            rcases List.mem_cons.mp hh with hh2 | hh2
            · rw [hent0r] at hent0n
              rw [hh2] at hentlen
              omega
            · have : r2.2.length ≤ ent.2.length :=
                (List.pairwise_cons.mp hpw2).1 _ (List.mem_map_of_mem _ hh2)
              rw [hent0r] at hent0n
              omega
    · have hfr : n1 + 1 ≤ Q'.length := inv.frontier x hxv Q' hQ' (p, path) (by simp)
      omega
  · -- closure
    intro x hx hnq y hadj
    rcases List.mem_append.mp hx with hxv | hxf
    · by_cases hxq : ∀ ent ∈ (p, path) :: rest, ent.1 ≠ x
      · exact List.mem_append_left _ (inv.closure x hxv hxq y hadj)
      · push_neg at hxq
        obtain ⟨ent, hentq, hentx⟩ := hxq
        rcases List.mem_cons.mp hentq with hh | hh
        · have hxp : x = p := by rw [hh] at hentx; exact hentx.symm
          rcases hcov y (hxp ▸ hadj) with hc | hc
          · exact List.mem_append_left _ hc
          · exact List.mem_append_right _ hc
        · exact absurd hentx (hnq ent (List.mem_append_left _ hh))
    · exfalso
      refine hnq (x, path ++ [x]) ?_ rfl
      exact List.mem_append_right _ (List.mem_map_of_mem _ hxf)
  · -- qvis
    intro ent hent
    rcases List.mem_append.mp hent with h | h
    · exact List.mem_append_left _ (inv.qvis ent (List.mem_cons_of_mem _ h))
    · rcases hnews_mem ent h with ⟨y, hy, rfl⟩
      exact List.mem_append_right _ hy
  · -- qnodup
    rw [List.map_append]
    have hmapf : ∀ l : List Point, (l.map (fun y => (y, path ++ [y]))).map Prod.fst = l := by
      intro l
      induction l with
      | nil => rfl
      | cons a t ih => simp only [List.map_cons]; rw [ih]
    rw [hmapf]
    rw [List.nodup_append]
    have hqn : (rest.map Prod.fst).Nodup := by
      have h := inv.qnodup
      rw [List.map_cons] at h
      exact h.of_cons
    refine ⟨hqn, hnd, ?_⟩
    intro a ha hb
    rcases List.mem_map.mp ha with ⟨ent, hent, rfl⟩
    exact hdisj _ hb (inv.qvis ent (List.mem_cons_of_mem _ hent))

/-- Soundness of the fuelled BFS loop: any returned path is a walk from the
start node to the end node, repeats no node, and has minimal node count
among all such walks. -/
theorem bfsAux_sound (m : NC) (s endNode : Point) :
    ∀ (fuel : ℕ) (queue : List (Point × List Point)) (visited : List Point) (P : List Point),
      BfsInv m s queue visited →
      bfsAux m endNode fuel queue visited = some P →
      GPath m s endNode P ∧ P.Nodup ∧ ∀ Q, GPath m s endNode Q → P.length ≤ Q.length := by
  intro fuel
  induction fuel with
  | zero =>
    intro queue visited P _ h
    simp [bfsAux] at h
  | succ n ih =>
    intro queue visited P inv h
    match queue with
    | [] => simp [bfsAux] at h
    | (p, path) :: rest =>
      simp only [bfsAux] at h
      by_cases hpe : p = endNode
      · rw [if_pos hpe] at h
        have hP : path = P := Option.some_inj.mp h
        subst hP
        subst hpe
        obtain ⟨hgp, hnd, _⟩ := inv.entries (p, path) (List.mem_cons_self _ _)
        exact ⟨hgp, hnd, fun Q hQ => inv.minimal (p, path) (List.mem_cons_self _ _) Q hQ⟩
      · rw [if_neg hpe] at h
        obtain ⟨fresh, heq, hnd, hdisj, hsub, hcov⟩ := bfsExpand_char path (ncGet m p) rest visited
        rw [heq] at h
        exact ih _ _ P (inv.step hnd hdisj hsub hcov) h

/-- Any path produced by `findPath` is a duplicate-free walk of minimal
node count between the snapped start and end nodes. -/
theorem findPath_some_charac {s e : Point} {rl : List Road} {P : List Point}
    (h : findPath s e rl = some P) :
    ∃ s0 e0, snapNode rl s = some s0 ∧ snapNode rl e = some e0 ∧
      GPath (nodeConnections rl) s0 e0 P ∧ P.Nodup ∧
      ∀ Q, GPath (nodeConnections rl) s0 e0 Q → P.length ≤ Q.length := by
  unfold findPath at h
  by_cases hrl : rl = []
  · rw [if_pos hrl] at h; cases h
  · rw [if_neg hrl] at h
    simp only [] at h
    cases hs : closestNode (allNodesList rl) s with
    | none => rw [hs] at h; cases h
    | some ps =>
      obtain ⟨s0, ds⟩ := ps
      cases he : closestNode (allNodesList rl) e with
      | none => rw [hs, he] at h; cases h
      | some pe =>
        obtain ⟨e0, de⟩ := pe
        rw [hs, he] at h
        simp only [] at h
        split_ifs at h with h1 h2
        have hsound := bfsAux_sound (nodeConnections rl) s0 e0
          ((allNodesList rl).length + 1) [(s0, [s0])] [s0] P
          (BfsInv.init (nodeConnections rl) s0) h
        exact ⟨s0, e0, by rw [snapNode, hs]; rfl, by rw [snapNode, he]; rfl,
          hsound.1, hsound.2.1, hsound.2.2⟩

/-- C2: whenever `findPath` returns a path, its edge count is minimal over
the constructed routable graph — no walk in the same adjacency between the
same snapped start node and snapped end node has strictly fewer edges
(equivalently, fewer nodes, both being nonempty walks between the same
endpoints). -/
theorem C2_bfs_minimal (s e : Point) (rl : List Road) (P Q : List Point) (s0 e0 : Point)
    (h : findPath s e rl = some P)
    (hs : snapNode rl s = some s0) (he : snapNode rl e = some e0)
    (hQ : GPath (nodeConnections rl) s0 e0 Q) :
    P.length ≤ Q.length := by
  obtain ⟨s0', e0', hs', he', _, _, hmin⟩ := findPath_some_charac h
  rw [hs] at hs'
  rw [he] at he'
  cases Option.some_inj.mp hs'
  cases Option.some_inj.mp he'
  exact hmin Q hQ

/-- C10: every path returned by `findPath` consists of pairwise-distinct
nodes (BFS marks a node visited when first enqueued and never re-enqueues
it). -/
theorem C10_path_nodup (s e : Point) (rl : List Road) (P : List Point)
    (h : findPath s e rl = some P) : P.Nodup := by
  obtain ⟨_, _, _, _, _, hnd, _⟩ := findPath_some_charac h
  exact hnd

theorem exRoad1_snap_s : snapNode exRoad1 ⟨200,0⟩ = some ⟨200,0⟩ := by
  norm_num [snapNode, closestNode, allNodesList, endpointNodes, realIntersections,
    orderedPairs, addNode, distSq, exRoad1]

theorem exRoad1_snap_e : snapNode exRoad1 ⟨0,0⟩ = some ⟨0,0⟩ := by
  norm_num [snapNode, closestNode, allNodesList, endpointNodes, realIntersections,
    orderedPairs, addNode, distSq, exRoad1]

theorem exRoad1_gpath :
    GPath (nodeConnections exRoad1) ⟨200,0⟩ ⟨0,0⟩ [⟨200,0⟩, ⟨0,0⟩] := by
  refine GPath.cons ?_ (GPath.single _)
  show (⟨0,0⟩ : Point) ∈ (ncGet (nodeConnections exRoad1) ⟨200,0⟩).map Prod.fst
  have hnc : nodeConnections exRoad1 =
      [(⟨0,0⟩, [(⟨200,0⟩, ⟨⟨0,0⟩, ⟨200,0⟩, none⟩)]),
       (⟨200,0⟩, [(⟨0,0⟩, ⟨⟨0,0⟩, ⟨200,0⟩, none⟩)])] := by
    norm_num [nodeConnections, exRoad1, realIntersections, orderedPairs, nodesOnRoad,
      sortByT, insertByT, linkConsec, ncPush]
  rw [hnc]
  norm_num [ncGet]

/-- C2 witness: on the single road of `exRoad1` the returned two-node path
is no longer than the concrete two-node walk from `(200,0)` to `(0,0)`. -/
theorem C2_bfs_minimal_witness :
    ([(⟨200,0⟩ : Point), ⟨0,0⟩]).length ≤ ([(⟨200,0⟩ : Point), ⟨0,0⟩]).length :=
  C2_bfs_minimal ⟨200,0⟩ ⟨0,0⟩ exRoad1 _ _ ⟨200,0⟩ ⟨0,0⟩
    exRoad1_path_eval exRoad1_snap_s exRoad1_snap_e exRoad1_gpath

/-- C10 witness: the concrete path returned on `exRoad1` has pairwise
distinct nodes. -/
theorem C10_path_nodup_witness : ([(⟨200,0⟩ : Point), ⟨0,0⟩]).Nodup :=
  C10_path_nodup ⟨200,0⟩ ⟨0,0⟩ exRoad1 _ exRoad1_path_eval

/-! ## Vehicle Scheduler: the game-loop tick (`RoadGame.tsx` lines 616-794) -/

/-- Vehicle status (`types.ts`). -/
inductive VStatus
  | goingToOffice
  | atOffice
  | goingHome
  | atHome
deriving DecidableEq, Repr

/-- Vehicle lane (`'left' | 'right'`). -/
inductive VLane
  | left
  | right
deriving DecidableEq, Repr

/-- A vehicle (`types.ts`).  String ids (vehicle and building) are opaque
and only compared for equality; they are modelled as naturals.  The `color`
string is likewise opaque. -/
structure Vehicle where
  id : ℕ
  position : Point
  targetIndex : ℕ
  path : List Point
  speed : ℚ
  waitTime : ℚ
  color : ℕ
  lane : VLane
  direction : ℚ
  fromBuilding : ℕ
  toBuilding : ℕ
  status : VStatus
  officeArrivalTime : ℚ
  intersectionArrivalTimes : List (Point × ℚ)
deriving DecidableEq, Repr

/-- A building (`types.ts`); the id is opaque, equality-compared only. -/
structure Building where
  id : ℕ
  position : Point
  color : ℕ
deriving DecidableEq, Repr

/-- The two browser numeric routines whose *values* the engine stores but
never branches on: `Math.sqrt` where it feeds a produced coordinate, and
`Math.atan2` for the facing direction.  Every theorem below holds for an
arbitrary interpretation. -/
structure FloatOps where
  sqrt : ℚ → ℚ
  atan2 : ℚ → ℚ → ℚ

/-- Modelled from the spec: `src/constants.ts` is not in the sources, so
the three constants the scheduler reads from it (`OFFICE_WAIT_TIME`,
`SCORE_PER_TRIP`, `LANE_OFFSET`) are parameters; the spec fixes no numeric
values ("a fixed office-wait duration", "one unit of score", "a fixed lane
offset"). -/
structure Config where
  officeWaitTime : ℚ
  scorePerTrip : ℚ
  laneOffset : ℚ

/-- `getLaneOffset(from, to, lane)` (`RoadGame.tsx` lines 604-613 and
`utils.ts` lines 46-56): the perpendicular lane offset, `{x:0, y:0}` when
the direction vector has zero length (`length === 0`, i.e. `dx²+dy² = 0`
exactly). -/
def getLaneOffset (cfg : Config) (ops : FloatOps) (src dst : Point) (lane : VLane) : Point :=
  let dx := dst.x - src.x
  let dy := dst.y - src.y
  if dx ^ 2 + dy ^ 2 = 0 then ⟨0, 0⟩
  else
    let length := ops.sqrt (dx ^ 2 + dy ^ 2)
    let offset := match lane with
      | VLane.right => cfg.laneOffset
      | VLane.left => -cfg.laneOffset
    ⟨-dy / length * offset, dx / length * offset⟩

/-- Lookup in the arrival-time record (`vehicle.intersectionArrivalTimes`,
an object keyed by the intersection's coordinate string). -/
def aLookup (ts : List (Point × ℚ)) (k : Point) : Option ℚ :=
  match ts with
  | [] => none
  | (k', t) :: rest => if k' = k then some t else aLookup rest k

/-- Object-key assignment: overwrite in place, or append a fresh key. -/
def aSet (ts : List (Point × ℚ)) (k : Point) (v : ℚ) : List (Point × ℚ) :=
  match ts with
  | [] => [(k, v)]
  | (k', t) :: rest => if k' = k then (k', v) :: rest else (k', t) :: aSet rest k v

/-- `delete obj[key]`. -/
def aErase (ts : List (Point × ℚ)) (k : Point) : List (Point × ℚ) :=
  ts.filter (fun e => e.1 ≠ k)

/-- Tick step 1 (lines 622-645): for an en-route vehicle, record the
current time at every intersection whose centre is within 30 px (unless a
truthy timestamp is already recorded — the source's `!newArrivalTimes[key]`
is a falsy test, so a stored `0` is overwritten), and erase the record of
every intersection farther away. -/
def updateArrivals (inters : List Inter) (now : ℚ) (v : Vehicle) : Vehicle :=
  if v.status = VStatus.goingToOffice ∨ v.status = VStatus.goingHome then
    { v with intersectionArrivalTimes := (inters.foldl
        (fun ts I =>
          if distSq v.position I.point < 900 then
            match aLookup ts I.point with
            | some tv => if tv = 0 then aSet ts I.point now else ts
            | none => aSet ts I.point now
          else aErase ts I.point)
        v.intersectionArrivalTimes) }
  else v

/-- A FIFO-queue entry `{id, arrivalTime}`. -/
abbrev QEntry := ℕ × ℚ

/-- `Map.get(k)!.push(e)` with creation on demand (lines 656-659). -/
def qPush (qs : List (Point × List QEntry)) (k : Point) (e : QEntry) :
    List (Point × List QEntry) :=
  match qs with
  | [] => [(k, [e])]
  | (k', l) :: rest => if k' = k then (k', l ++ [e]) :: rest else (k', l) :: qPush rest k e

/-- `intersectionQueues.get(key)`, empty when absent (line 731). -/
def qGet (qs : List (Point × List QEntry)) (k : Point) : List QEntry :=
  match qs with
  | [] => []
  | (k', l) :: rest => if k' = k then l else qGet rest k

/-- Stable insertion by arrival time (ES2019 `sort` is stable; the source
comparator is `(a, b) => a.arrivalTime - b.arrivalTime`). -/
def insertByAT (x : QEntry) : List QEntry → List QEntry
  | [] => [x]
  | y :: ys => if x.2 < y.2 then x :: y :: ys else y :: insertByAT x ys

def sortByAT (l : List QEntry) : List QEntry :=
  l.foldl (fun acc x => insertByAT x acc) []

/-- Tick step 2 (lines 648-666): gather every en-route vehicle's recorded
arrival times into per-intersection queues, then sort each queue ascending
by arrival time. -/
def buildQueues (S : List Vehicle) : List (Point × List QEntry) :=
  (S.foldl
    (fun qs v =>
      if v.status = VStatus.goingToOffice ∨ v.status = VStatus.goingHome then
        v.intersectionArrivalTimes.foldl (fun qs kt => qPush qs kt.1 (v.id, kt.2)) qs
      else qs)
    []).map (fun e => (e.1, sortByAT e.2))

/-- `createReturnPath(vehicle)` (lines 405-410): look up the office and
home buildings by id; path from office position to home position. -/
def createReturnPath (bs : List Building) (rl : List Road) (v : Vehicle) :
    Option (List Point) :=
  match bs.find? (fun b => b.id == v.toBuilding), bs.find? (fun b => b.id == v.fromBuilding) with
  | some office, some home => findPath office.position home.position rl
  | _, _ => none

/-- The vehicle is inside some intersection's inner radius
(`distance < 15`, squared `< 225`; line 719-721). -/
def insideAnyInter (inters : List Inter) (v : Vehicle) : Prop :=
  ∃ I ∈ inters, distSq v.position I.point < 225

instance (inters : List Inter) (v : Vehicle) : Decidable (insideAnyInter inters v) := by
  unfold insideAnyInter; infer_instance

/-- Some *other* same-status vehicle is inside the intersection's inner
radius (lines 734-738). -/
def sameDirInside (S : List Vehicle) (v : Vehicle) (I : Inter) : Prop :=
  ∃ o ∈ S, o.id ≠ v.id ∧ o.status = v.status ∧ distSq o.position I.point < 225

instance (S : List Vehicle) (v : Vehicle) (I : Inter) : Decidable (sameDirInside S v I) := by
  unfold sameDirInside; infer_instance

/-- The queue restricted to vehicles of the same status (lines 744-747). -/
def sameDirQueue (S : List Vehicle) (v : Vehicle) (queue : List QEntry) : List QEntry :=
  queue.filter
    (fun q =>
      match S.find? (fun ov => ov.id == q.1) with
      | some ov => decide (ov.status = v.status)
      | none => false)

/-- The wait decision of lines 716-755, exactly as coded: never wait inside
an intersection; otherwise wait if some intersection in the approach band
(`15 ≤ distance < 35`, squared `[225, 1225)`) has another same-status
vehicle inside it, or its queue has `≥ 2` entries of which `≥ 2` are
same-status and the first same-status entry is not this vehicle. -/
def shouldWaitCode (S : List Vehicle) (qs : List (Point × List QEntry))
    (inters : List Inter) (v : Vehicle) : Prop :=
  ¬ insideAnyInter inters v ∧
  ∃ I ∈ inters,
    225 ≤ distSq v.position I.point ∧ distSq v.position I.point < 1225 ∧
    (sameDirInside S v I ∨
     (2 ≤ (qGet qs I.point).length ∧
      2 ≤ (sameDirQueue S v (qGet qs I.point)).length ∧
      ((sameDirQueue S v (qGet qs I.point)).headD (0, 0)).1 ≠ v.id))

instance (S : List Vehicle) (qs : List (Point × List QEntry)) (inters : List Inter)
    (v : Vehicle) : Decidable (shouldWaitCode S qs inters v) := by
  unfold shouldWaitCode; infer_instance

/-- Tick step 3, the per-vehicle transition (lines 670-784): office dwell,
at-home removal, path-end arrival, wait decision, and movement.  Returns
the updated vehicle (`none` when removed) and the score contributed.
Decision comparisons on distances are exact (carried out on squares);
the two produced irrational values (normalised step, facing angle) go
through `ops`. -/
def stepVehicle (cfg : Config) (ops : FloatOps) (S : List Vehicle)
    (qs : List (Point × List QEntry)) (inters : List Inter)
    (bs : List Building) (rl : List Road) (now : ℚ) (v : Vehicle) :
    Option Vehicle × ℚ :=
  if v.status = VStatus.atOffice then
    if cfg.officeWaitTime ≤ now - v.officeArrivalTime then
      match createReturnPath bs rl v with
      | some rp =>
          if 2 ≤ rp.length then
            (some { v with
                      status := VStatus.goingHome,
                      path := rp,
                      targetIndex := 1,
                      position := rp.headD ⟨0,0⟩,
                      intersectionArrivalTimes := [] }, 0)
          else (some v, 0)
      | none => (some v, 0)
    else (some v, 0)
  else if v.status = VStatus.atHome then (none, 0)
  else if v.path.length ≤ v.targetIndex then
    if v.status = VStatus.goingToOffice then
      (some { v with status := VStatus.atOffice, officeArrivalTime := now }, 0)
    else if v.status = VStatus.goingHome then (none, cfg.scorePerTrip)
    else (some v, 0)
  else
    let target := v.path.getD v.targetIndex ⟨0,0⟩
    let prev := v.path.getD (v.targetIndex - 1) ⟨0,0⟩
    let lo := getLaneOffset cfg ops prev target v.lane
    let adjT : Point := ⟨target.x + lo.x, target.y + lo.y⟩
    let dx := adjT.x - v.position.x
    let dy := adjT.y - v.position.y
    let dsq := dx ^ 2 + dy ^ 2
    if shouldWaitCode S qs inters v then
      (some { v with waitTime := v.waitTime + 16/1000 }, 0)
    else if 0 < v.speed ∧ dsq < v.speed ^ 2 then
      (some { v with
                position := adjT,
                targetIndex := v.targetIndex + 1,
                direction := ops.atan2 dy dx,
                waitTime := max 0 (v.waitTime - 16/1000) }, 0)
    else
      let dist := ops.sqrt dsq
      (some { v with
                position := ⟨v.position.x + dx / dist * v.speed,
                             v.position.y + dy / dist * v.speed⟩,
                direction := ops.atan2 dy dx,
                waitTime := max 0 (v.waitTime - 16/1000) }, 0)

/-- One full simulation tick (lines 616-791): arrival bookkeeping on every
vehicle, queue construction from the updated snapshot, then the per-vehicle
transition over that snapshot; removed vehicles are filtered out and the
batch's score delta is committed at the end. -/
def simTick (cfg : Config) (ops : FloatOps) (vehicles : List Vehicle)
    (inters : List Inter) (bs : List Building) (rl : List Road) (now : ℚ) :
    List Vehicle × ℚ :=
  let S := vehicles.map (updateArrivals inters now)
  let qs := buildQueues S
  S.foldl
    (fun acc v =>
      let r := stepVehicle cfg ops S qs inters bs rl now v
      (match r.1 with
       | some nv => acc.1 ++ [nv]
       | none => acc.1, acc.2 + r.2))
    ([], 0)

/-- The approach-band wait condition as the specification words it: the
vehicle's distance to the intersection lies in `[15, 35)` px and either
(a) another same-status vehicle is inside that intersection's inner radius,
or (b) that intersection's queue restricted to same-status vehicles has at
least 2 entries and this vehicle is not the earliest-arrival entry among
them. -/
def waitsAt (S : List Vehicle) (qs : List (Point × List QEntry)) (v : Vehicle)
    (I : Inter) : Prop :=
  225 ≤ distSq v.position I.point ∧ distSq v.position I.point < 1225 ∧
  (sameDirInside S v I ∨
   (2 ≤ (sameDirQueue S v (qGet qs I.point)).length ∧
    ((sameDirQueue S v (qGet qs I.point)).headD (0, 0)).1 ≠ v.id))

/-- C5: in a tick, an en-route vehicle strictly before its path end and
with nonnegative accumulated wait time is marked waiting (its `waitTime` is
incremented by the tick quantum, everything else unchanged) exactly when it
is not within 15 px of any intersection and some intersection at distance
in `[15, 35)` px satisfies the same-direction-inside or FIFO-queue
condition.  In particular a vehicle within 15 px of any intersection is
never marked waiting. -/
theorem C5_wait_characterization (cfg : Config) (ops : FloatOps) (S : List Vehicle)
    (qs : List (Point × List QEntry)) (inters : List Inter)
    (bs : List Building) (rl : List Road) (now : ℚ) (v : Vehicle)
    (hst : v.status = VStatus.goingToOffice ∨ v.status = VStatus.goingHome)
    (hidx : v.targetIndex < v.path.length)
    (hwt : 0 ≤ v.waitTime) :
    (stepVehicle cfg ops S qs inters bs rl now v).1 =
        some { v with waitTime := v.waitTime + 16/1000 } ↔
      (¬ insideAnyInter inters v ∧ ∃ I ∈ inters, waitsAt S qs v I) := by
  have hrhs : (¬ insideAnyInter inters v ∧ ∃ I ∈ inters, waitsAt S qs v I) ↔
      shouldWaitCode S qs inters v := by
    unfold shouldWaitCode waitsAt
    constructor
    · rintro ⟨hni, I, hI, h1, h2, h3⟩
      refine ⟨hni, I, hI, h1, h2, ?_⟩
      rcases h3 with h3 | ⟨hsub, hhead⟩
      · exact Or.inl h3
      · exact Or.inr ⟨le_trans hsub (List.length_filter_le _ _), hsub, hhead⟩
    · rintro ⟨hni, I, hI, h1, h2, h3⟩
      refine ⟨hni, I, hI, h1, h2, ?_⟩
      rcases h3 with h3 | ⟨_, hsub, hhead⟩
      · exact Or.inl h3
      · exact Or.inr ⟨hsub, hhead⟩
  rw [hrhs]
  have hso : v.status ≠ VStatus.atOffice := by
    rcases hst with h | h <;> rw [h] <;> intro hc <;> cases hc
  have hsh : v.status ≠ VStatus.atHome := by
    rcases hst with h | h <;> rw [h] <;> intro hc <;> cases hc
  unfold stepVehicle
  rw [if_neg hso, if_neg hsh, if_neg (by omega : ¬ v.path.length ≤ v.targetIndex)]
  simp only []
  by_cases hw : shouldWaitCode S qs inters v
  · rw [if_pos hw]
    simp [hw]
  · rw [if_neg hw]
    simp only [hw, iff_false]
    split_ifs with hsp
    · intro hc
      have h1 := Option.some_inj.mp hc
      have h2 := congrArg Vehicle.targetIndex h1
      simp at h2
    · intro hc
      have h1 := Option.some_inj.mp hc
      have h2 := congrArg Vehicle.waitTime h1
      simp only [] at h2
      rcases max_cases (0 : ℚ) (v.waitTime - 16/1000) with ⟨hm, _⟩ | ⟨hm, _⟩ <;>
        rw [hm] at h2 <;> linarith

/-- A fixed configuration for concrete runs: 5000 ms office dwell, one
score unit per trip, 3 px lane offset. -/
def cfgW : Config := ⟨5000, 1, 3⟩

/-- A trivial interpretation of the two abstracted numeric routines. -/
def opsW : FloatOps := ⟨fun _ => 0, fun _ _ => 0⟩

/-- An en-route vehicle at `(20,0)`, heading along a two-node path. -/
def vW : Vehicle where
  id := 1
  position := ⟨20, 0⟩
  targetIndex := 1
  path := [⟨40, 0⟩, ⟨-40, 0⟩]
  speed := 2
  waitTime := 0
  color := 0
  lane := VLane.right
  direction := 0
  fromBuilding := 11
  toBuilding := 10
  status := VStatus.goingToOffice
  officeArrivalTime := 0
  intersectionArrivalTimes := []

/-- Another vehicle of the same status inside the intersection at the
origin. -/
def oW : Vehicle := { vW with id := 2, position := ⟨5, 0⟩ }

/-- The intersection at the origin. -/
def iW : Inter := ⟨⟨0, 0⟩, 0⟩

/-- C5 witness: `vW` sits 20 px from the origin intersection (inside the
approach band), `oW` of the same status sits 5 px from it (inside the inner
radius), so the tick marks `vW` waiting. -/
theorem C5_wait_characterization_witness :
    (stepVehicle cfgW opsW [oW] [] [iW] [] [] 0 vW).1 =
      some { vW with waitTime := vW.waitTime + 16/1000 } := by
  refine (C5_wait_characterization cfgW opsW [oW] [] [iW] [] [] 0 vW
      (Or.inl rfl) (by norm_num [vW]) (by norm_num [vW])).mpr ⟨?_, ?_⟩
  · norm_num [insideAnyInter, vW, iW, distSq]
  · refine ⟨iW, List.mem_singleton.mpr rfl, ?_, ?_, Or.inl ?_⟩
    · norm_num [vW, iW, distSq]
    · norm_num [vW, iW, distSq]
    · refine ⟨oW, List.mem_singleton.mpr rfl, ?_, rfl, ?_⟩
      · norm_num [oW, vW]
      · norm_num [oW, vW, iW, distSq]

/-- C6 (amended: the `at-home` branch removes the vehicle *without*
crediting score; trip credit is instead applied when a `going-home`
vehicle reaches the end of its path and is removed directly).  A vehicle
with status `at-home` yields `(none, 0)` from the per-vehicle transition:
removed, zero score contribution. -/
theorem C6_at_home_removed_uncredited (cfg : Config) (ops : FloatOps) (S : List Vehicle)
    (qs : List (Point × List QEntry)) (inters : List Inter)
    (bs : List Building) (rl : List Road) (now : ℚ) (v : Vehicle)
    (h : v.status = VStatus.atHome) :
    stepVehicle cfg ops S qs inters bs rl now v = (none, 0) := by
  unfold stepVehicle
  rw [if_neg (by rw [h]; intro hc; cases hc), if_pos h]

/-- The vehicle of `vW` already back home. -/
def vHomeW : Vehicle := { vW with status := VStatus.atHome }

/-- C6 witness: the at-home branch applied to the concrete vehicle
`vHomeW`. -/
theorem C6_at_home_removed_uncredited_witness :
    stepVehicle cfgW opsW [] [] [] [] [] 0 vHomeW = (none, 0) :=
  C6_at_home_removed_uncredited cfgW opsW [] [] [] [] [] 0 vHomeW rfl

/-- C6, counterexample to the claim as stated: a tick over a single
`at-home` vehicle removes it from the active set but commits a zero score
delta — the completed trip is *not* credited (with one score unit per
trip the committed delta would have to be 1). -/
theorem C6_at_home_credit_counterexample :
    simTick cfgW opsW [vHomeW] [] [] [] 0 = ([], 0) ∧
    cfgW.scorePerTrip = 1 ∧ (simTick cfgW opsW [vHomeW] [] [] [] 0).2 ≠ cfgW.scorePerTrip := by
  have hst : ¬ (vHomeW.status = VStatus.goingToOffice ∨ vHomeW.status = VStatus.goingHome) := by
    intro hc
    rcases hc with hc | hc <;> exact absurd hc (by decide)
  have h0 : updateArrivals [] 0 vHomeW = vHomeW := by
    unfold updateArrivals
    rw [if_neg hst]
  have h1 : stepVehicle cfgW opsW [vHomeW] [] [] [] [] 0 vHomeW = (none, 0) := by
    unfold stepVehicle
    rw [if_neg (by decide), if_pos (by decide)]
  have hq : buildQueues [vHomeW] = [] := by
    unfold buildQueues
    rw [List.foldl_cons, if_neg hst, List.foldl_nil, List.map_nil]
  have h : simTick cfgW opsW [vHomeW] [] [] [] 0 = ([], 0) := by
    unfold simTick
    simp only [List.map_cons, List.map_nil, h0, hq, List.foldl_cons, List.foldl_nil, h1]
    norm_num
  refine ⟨h, rfl, ?_⟩
  rw [h]
  norm_num [cfgW]

/-- C7: an `at-office` vehicle transitions to `going-home` — with the
freshly computed return path, `targetIndex` 1, position at the path's first
node, and cleared arrival bookkeeping — exactly once the dwell has elapsed
and a return path of length at least 2 exists; before the dwell elapses, or
when no return path exists, it is left unchanged (and contributes no
score). -/
theorem C7_office_dwell (cfg : Config) (ops : FloatOps) (S : List Vehicle)
    (qs : List (Point × List QEntry)) (inters : List Inter)
    (bs : List Building) (rl : List Road) (now : ℚ) (v : Vehicle)
    (hst : v.status = VStatus.atOffice) :
    (∀ rp, cfg.officeWaitTime ≤ now - v.officeArrivalTime →
      createReturnPath bs rl v = some rp → 2 ≤ rp.length →
      stepVehicle cfg ops S qs inters bs rl now v =
        (some { v with
                  status := VStatus.goingHome,
                  path := rp,
                  targetIndex := 1,
                  position := rp.headD ⟨0,0⟩,
                  intersectionArrivalTimes := [] }, 0)) ∧
    ((now - v.officeArrivalTime < cfg.officeWaitTime ∨ createReturnPath bs rl v = none) →
      stepVehicle cfg ops S qs inters bs rl now v = (some v, 0)) := by
  unfold stepVehicle
  rw [if_pos hst]
  constructor
  · intro rp hdwell hpath hlen
    rw [if_pos hdwell, hpath]
    simp only []
    rw [if_pos hlen]
  · intro h
    rcases h with h | h
    · rw [if_neg (not_le.mpr h)]
    · by_cases hdwell : cfg.officeWaitTime ≤ now - v.officeArrivalTime
      · rw [if_pos hdwell, h]
      · rw [if_neg hdwell]

/-- The matching office and home buildings for `vOffW` (ids 10 and 11). -/
def bsW : List Building := [⟨10, ⟨200,0⟩, 0⟩, ⟨11, ⟨0,0⟩, 0⟩]

/-- The vehicle of `vW` dwelling at its office since time 0. -/
def vOffW : Vehicle := { vW with status := VStatus.atOffice }

theorem vOffW_return_path :
    createReturnPath bsW exRoad1 vOffW = some [⟨200,0⟩, ⟨0,0⟩] := by
  have h1 : bsW.find? (fun b => b.id == vOffW.toBuilding) = some ⟨10, ⟨200,0⟩, 0⟩ := rfl
  have h2 : bsW.find? (fun b => b.id == vOffW.fromBuilding) = some ⟨11, ⟨0,0⟩, 0⟩ := rfl
  unfold createReturnPath
  rw [h1, h2]
  exact exRoad1_path_eval

/-- C7 witness: at time 10000 (dwell 5000 elapsed since 0) the concrete
office vehicle departs home along the computed return path; at time 1000
(dwell not yet elapsed) it is unchanged. -/
theorem C7_office_dwell_witness :
    stepVehicle cfgW opsW [] [] [] bsW exRoad1 10000 vOffW =
      (some { vOffW with
                status := VStatus.goingHome,
                path := [⟨200,0⟩, ⟨0,0⟩],
                targetIndex := 1,
                position := ⟨200,0⟩,
                intersectionArrivalTimes := [] }, 0) ∧
    stepVehicle cfgW opsW [] [] [] bsW exRoad1 1000 vOffW = (some vOffW, 0) := by
  constructor
  · exact (C7_office_dwell cfgW opsW [] [] [] bsW exRoad1 10000 vOffW rfl).1
      [⟨200,0⟩, ⟨0,0⟩] (by norm_num [cfgW, vOffW, vW]) vOffW_return_path (by norm_num)
  · exact (C7_office_dwell cfgW opsW [] [] [] bsW exRoad1 1000 vOffW rfl).2
      (Or.inl (by norm_num [cfgW, vOffW, vW]))

/-- C9: the two zero-length-vector degeneracies short-circuit to a neutral
result instead of dividing by zero: a zero-length direction vector yields
the zero lane offset `{x:0, y:0}` (for every interpretation of `sqrt`),
and projecting crossings onto a zero-length road is skipped entirely, so
the road contributes only its two endpoint nodes. -/
theorem C9_zero_length_guards :
    (∀ (cfg : Config) (ops : FloatOps) (p : Point) (lane : VLane),
      getLaneOffset cfg ops p p lane = ⟨0, 0⟩) ∧
    (∀ (crossings : List Point) (r : Road), r.start = r.stop →
      nodesOnRoad crossings r = [⟨r.start, 0⟩, ⟨r.stop, 1⟩]) := by
  constructor
  · intro cfg ops p lane
    unfold getLaneOffset
    rw [if_pos (by simp)]
  · intro crossings r h
    unfold nodesOnRoad
    split_ifs with hc
    · have hdx : r.stop.x - r.start.x = 0 := by rw [h]; ring
      have hdy : r.stop.y - r.start.y = 0 := by rw [h]; ring
      induction crossings with
      | nil => rfl
      | cons q qs ih =>
        rw [List.foldl_cons]
        simp only []
        rw [if_pos (by rw [hdx, hdy]; ring)]
        exact ih
    · rfl

/-- C9 witness: the guards applied at a concrete degenerate point and a
concrete zero-length road. -/
theorem C9_zero_length_guards_witness :
    getLaneOffset cfgW opsW ⟨3,4⟩ ⟨3,4⟩ VLane.right = ⟨0, 0⟩ ∧
    nodesOnRoad [⟨7,7⟩] ⟨⟨1,2⟩, ⟨1,2⟩, none⟩ = [⟨⟨1,2⟩, 0⟩, ⟨⟨1,2⟩, 1⟩] :=
  ⟨C9_zero_length_guards.1 cfgW opsW ⟨3,4⟩ VLane.right,
   C9_zero_length_guards.2 [⟨7,7⟩] ⟨⟨1,2⟩, ⟨1,2⟩, none⟩ rfl⟩

end Roadmaker
